import Mathlib

/-!
Verification of the position-tracking and copy-trade decision engine of a
Polymarket copy-trading bot.

The embedding follows the TypeScript source:
* `src/tracking/position-tracker.ts` — `PositionTracker.detectChanges`,
  `getStatus`, `updateStatus`;
* `src/execution/strategy-executor.ts` — `StrategyExecutor.handleStatusUpdate`
  (diff-and-execute cycle), the `onUpdate` wrapper and `start`.

Numeric values that the code holds as decimal strings and manipulates through
`parseFloat` are modelled as exact rationals (`ℚ`).  JavaScript `Map`s are
modelled as insertion-ordered association lists with last-write-wins `set`
semantics, and `Set`s as insertion-ordered duplicate-free lists; both mirror
the iteration order of the originals.  The order gateway (`OrderExecutor`) is
an external collaborator: its behaviour is a parameter, an oracle mapping each
attempted position to an outcome (success with executed quantity/price,
failure result, or thrown exception).  Each diff-and-execute cycle also emits
the trace of gateway calls it performed, so that claims about which positions
are ever passed to the buy or sell gateway become statements about traces.
-/

/-- One open position of the tracked account (`Position` in `types.ts`):
identifier, market question, outcome label, quantity and price (decimal
strings in the source, exact rationals here). -/
structure Position where
  id : String
  question : String
  outcome : String
  quantity : ℚ
  price : ℚ
  deriving DecidableEq, Repr

/-- The status snapshot built by `PositionTracker.getStatus`:  open positions,
their count, and the aggregate value reported by the API. -/
structure TradingStatus where
  totalPositions : ℕ
  totalValue : ℚ
  openPositions : List Position
  deriving DecidableEq, Repr

/-! ### JavaScript `Map` and `Set` semantics

`new Map()` with `map.set` keeps insertion order of keys and overwrites the
value on a repeated key; `Set.add` keeps insertion order and ignores
duplicates; `Set.delete` removes the element. -/

/-- `map.set k v`: overwrite in place if the key exists, else append. -/
def mapSet (m : List (String × Position)) (k : String) (v : Position) :
    List (String × Position) :=
  if k ∈ m.map Prod.fst then
    m.map (fun e => if e.1 = k then (k, v) else e)
  else
    m ++ [(k, v)]

/-- `new Map(ps.map(p => [p.id, p]))`, and the loop
`ps.forEach(pos => m.set(pos.id, pos))`: insert every position keyed by id. -/
def mapOfList (ps : List Position) : List (String × Position) :=
  ps.foldl (fun m p => mapSet m p.id p) []

/-- `m.get k` (`undefined` becomes `none`). -/
def mapGet (m : List (String × Position)) (k : String) : Option Position :=
  (m.find? (fun e => decide (e.1 = k))).map Prod.snd

/-- `m.has k`. -/
def mapHas (m : List (String × Position)) (k : String) : Bool :=
  decide (k ∈ m.map Prod.fst)

/-- `set.has x` for a `Set<string>`. -/
def setHas (s : List String) (x : String) : Bool :=
  decide (x ∈ s)

/-- `set.add x`. -/
def setAdd (s : List String) (x : String) : List String :=
  if x ∈ s then s else s ++ [x]

/-- `set.delete x`. -/
def setDelete (s : List String) (x : String) : List String :=
  s.filter (fun y => decide (y ≠ x))

/-! ### Position tracker: change detection (`detectChanges`) -/

/-- `PositionTracker.detectChanges`, with the stored `lastStatus` passed
explicitly.  Mirrors the source: no prior snapshot ⇒ changed; position count
differs ⇒ changed; a current position unmatched by id, or matched with
`|currQty - prevQty| > max(1, prevQty * 0.01)` ⇒ changed; finally
`|currValue - prevValue| / max(prevValue, 0.01) > 0.01` ⇒ changed; otherwise
unchanged. -/
def detectChanges (lastStatus : Option TradingStatus) (status : TradingStatus) :
    Bool :=
  match lastStatus with
  | none => true
  | some last =>
    if status.openPositions.length ≠ last.openPositions.length then
      true
    else
      let prevMap := mapOfList last.openPositions
      if status.openPositions.any (fun current =>
          match mapGet prevMap current.id with
          | none => true
          | some previous =>
            decide (|current.quantity - previous.quantity| >
              max 1 (previous.quantity * (1/100)))) then
        true
      else
        decide (|status.totalValue - last.totalValue| /
          max last.totalValue (1/100) > 1/100)

/-! ### Position tracker: fetching and the poll cycle -/

/-- The result shape of `client.getUserPositions`. -/
structure FetchResult where
  positions : List Position
  totalValue : ℚ
  deriving DecidableEq, Repr

/-- The tracker state the poll cycle reads and writes: the last emitted
snapshot (absent before the first successful poll) and the last logging
poll time. -/
structure TrackerState where
  lastStatus : Option TradingStatus
  lastPollTime : Option ℕ
  deriving DecidableEq, Repr

/-- `PositionTracker.getStatus`.  The pending fetch is passed as its result
(`Except` models the promise rejecting).  Returns the list of error-callback
invocations it performs together with its own outcome: on fetch success a
freshly built status, on fetch failure it invokes the error callback once and
rethrows. -/
def getStatus (fetch : Except String FetchResult) :
    List String × Except String TradingStatus :=
  match fetch with
  | Except.ok r =>
    ([], Except.ok
      { totalPositions := r.positions.length
        totalValue := r.totalValue
        openPositions := r.positions })
  | Except.error e => ([e], Except.error e)

/-- `PositionTracker.updateStatus`, one poll cycle over the tracker state.
Returns the new state, the error-callback invocations, and the update-callback
invocations.  On fetch failure the `catch` block invokes the error callback
(in addition to the one `getStatus` already performed) and the stored state is
left untouched; on success the snapshot is stored and the update callback
fired exactly when `detectChanges` reports a change or no prior snapshot
exists. -/
def updateStatus (fetch : Except String FetchResult) (now : ℕ)
    (tr : TrackerState) : TrackerState × List String × List TradingStatus :=
  match getStatus fetch with
  | (errs, Except.error e) => (tr, errs ++ [e], [])
  | (errs, Except.ok status) =>
    let hasChanges := detectChanges tr.lastStatus status
    let tr1 :=
      if tr.lastPollTime = none ∨ now - tr.lastPollTime.getD 0 > 10000 then
        { tr with lastPollTime := some now }
      else tr
    if hasChanges ∨ tr.lastStatus = none then
      ({ tr1 with lastStatus := some status }, errs, [status])
    else
      (tr1, errs, [])

/-! ### Strategy executor: data model -/

/-- The outcome of one order-gateway call (`executeBuy` / `executeSell`): a
resolved result with `success: true` and optional executed quantity/price, a
resolved result with `success: false` and an error message, or a rejected
promise (caught by the surrounding `try`). -/
inductive OrderOutcome where
  | success (executedQuantity executedPrice : Option ℚ)
  | failure (error : String)
  | thrown (message : String)
  deriving DecidableEq, Repr

/-- The running statistics (`CopyTradingStatus` in `types.ts`).  `totalVolume`
is a decimal string maintained through `parseFloat`/`toFixed(2)` in the
source; here an exact rational rounded to two decimals on each update.
`lastTradeTime` is the wall-clock instant of the last successful trade. -/
structure CopyTradingStatus where
  enabled : Bool
  dryRun : Bool
  totalTradesExecuted : ℕ
  totalTradesFailed : ℕ
  totalVolume : ℚ
  lastTradeTime : Option ℕ
  deriving DecidableEq, Repr

/-- The mutable state of `StrategyExecutor` touched by the diff-and-execute
cycle: the execution ledger (`executedPositions : Set<string>`), the
target-position map of the prior cycle (`targetPositions`), and the
statistics. -/
structure ExecState where
  executedPositions : List String
  targetPositions : List (String × Position)
  stats : CopyTradingStatus
  deriving DecidableEq, Repr

/-- The state after construction: empty ledger, empty target map, zeroed
counters. -/
def initialState (enabled dryRun : Bool) : ExecState :=
  { executedPositions := []
    targetPositions := []
    stats :=
      { enabled := enabled
        dryRun := dryRun
        totalTradesExecuted := 0
        totalTradesFailed := 0
        totalVolume := 0
        lastTradeTime := none } }

/-- One gateway call as recorded in a cycle's trace: which side, which
position was passed, and the outcome the gateway returned. -/
inductive TradeCall where
  | buy (position : Position) (outcome : OrderOutcome)
  | sell (position : Position) (outcome : OrderOutcome)
  deriving DecidableEq, Repr

/-- `(x).toFixed(2)` re-parsed: round to two decimal places. -/
def toFixed2 (x : ℚ) : ℚ :=
  (round (x * 100) : ℚ) / 100

/-- The stats update on a successful order (`result.success` branch, shared
verbatim between the buy and sell loops): increment the executed counter, add
`(executedQuantity ?? '0') * (executedPrice ?? '0')` to the volume, stamp the
trade time. -/
def applySuccess (stats : CopyTradingStatus) (q p : Option ℚ) (time : ℕ) :
    CopyTradingStatus :=
  { stats with
      totalTradesExecuted := stats.totalTradesExecuted + 1
      totalVolume := toFixed2 (stats.totalVolume + q.getD 0 * p.getD 0)
      lastTradeTime := some time }

/-- The stats update on a failed or thrown order: increment the failed
counter only. -/
def applyFailure (stats : CopyTradingStatus) : CopyTradingStatus :=
  { stats with totalTradesFailed := stats.totalTradesFailed + 1 }

/-- The state change of one buy attempt after `executeBuy` resolved:
`if (result.success)` insert the id into the ledger and update stats;
`else`, and in the `catch` arm, increment the failed counter only. -/
def applyBuyResult (st : ExecState) (p : Position) (result : OrderOutcome)
    (time : ℕ) : ExecState :=
  match result with
  | OrderOutcome.success q pr =>
    { st with
        executedPositions := setAdd st.executedPositions p.id
        stats := applySuccess st.stats q pr time }
  | OrderOutcome.failure _ => { st with stats := applyFailure st.stats }
  | OrderOutcome.thrown _ => { st with stats := applyFailure st.stats }

/-- The state change of one sell attempt after `executeSell` resolved:
`if (result.success)` delete the id from the ledger and update stats;
`else`, and in the `catch` arm, increment the failed counter only. -/
def applySellResult (st : ExecState) (p : Position) (result : OrderOutcome)
    (time : ℕ) : ExecState :=
  match result with
  | OrderOutcome.success q pr =>
    { st with
        executedPositions := setDelete st.executedPositions p.id
        stats := applySuccess st.stats q pr time }
  | OrderOutcome.failure _ => { st with stats := applyFailure st.stats }
  | OrderOutcome.thrown _ => { st with stats := applyFailure st.stats }

/-- The buy loop of `handleStatusUpdate` over `newPositions`: skip a position
already in the ledger; otherwise call `executeBuy`, record the call, apply
its result to the state, and continue with the remaining positions. -/
def buyLoop (buyFn : Position → OrderOutcome) (time : ℕ) :
    List Position → ExecState → ExecState × List TradeCall
  | [], st => (st, [])
  | p :: ps, st =>
    if setHas st.executedPositions p.id then
      buyLoop buyFn time ps st
    else
      let rest := buyLoop buyFn time ps (applyBuyResult st p (buyFn p) time)
      (rest.1, TradeCall.buy p (buyFn p) :: rest.2)

/-- The sell loop of `handleStatusUpdate` over `closedPositions`: skip a
position whose id is not in the ledger (only sell what we previously bought);
otherwise call `executeSell`, record the call, apply its result to the state,
and continue with the remaining positions. -/
def sellLoop (sellFn : Position → OrderOutcome) (time : ℕ) :
    List Position → ExecState → ExecState × List TradeCall
  | [], st => (st, [])
  | p :: ps, st =>
    if !(setHas st.executedPositions p.id) then
      sellLoop sellFn time ps st
    else
      let rest := sellLoop sellFn time ps (applySellResult st p (sellFn p) time)
      (rest.1, TradeCall.sell p (sellFn p) :: rest.2)

/-- The `newPositions` diff of `handleStatusUpdate`: the positions of
`currentPositions = mapOfList openPositions` whose id is not in
`targetPositions`, in map iteration order. -/
def newPositionsOf (st : ExecState) (openPositions : List Position) :
    List Position :=
  ((mapOfList openPositions).filter
    (fun e => !(mapHas st.targetPositions e.1))).map Prod.snd

/-- The `closedPositions` diff of `handleStatusUpdate`: the positions of
`targetPositions` whose id is not in `currentPositions`, in map iteration
order. -/
def closedPositionsOf (st : ExecState) (openPositions : List Position) :
    List Position :=
  (st.targetPositions.filter
    (fun e => !(mapHas (mapOfList openPositions) e.1))).map Prod.snd

/-- `StrategyExecutor.handleStatusUpdate`: build `currentPositions` from the
snapshot, diff against `targetPositions` into `newPositions` (in current, not
in target) and `closedPositions` (in target, not in current), run the buy
loop then the sell loop, and unconditionally replace `targetPositions` with
`currentPositions`.  Returns the new state and the trace of gateway calls. -/
def handleStatusUpdate (buyFn sellFn : Position → OrderOutcome) (time : ℕ)
    (st : ExecState) (openPositions : List Position) :
    ExecState × List TradeCall :=
  let afterBuys := buyLoop buyFn time (newPositionsOf st openPositions) st
  let afterSells :=
    sellLoop sellFn time (closedPositionsOf st openPositions) afterBuys.1
  ({ afterSells.1 with targetPositions := mapOfList openPositions },
   afterBuys.2 ++ afterSells.2)

/-- The input of one diff-and-execute cycle: the gateway's behaviour for this
cycle's buy and sell attempts, the wall-clock time, and the accepted
snapshot's open positions. -/
structure CycleInput where
  buyFn : Position → OrderOutcome
  sellFn : Position → OrderOutcome
  time : ℕ
  openPositions : List Position

/-- A sequence of diff-and-execute cycles from a given state, with the
concatenated trace of all gateway calls. -/
def runCycles (st : ExecState) : List CycleInput → ExecState × List TradeCall
  | [] => (st, [])
  | c :: rest =>
    let step := handleStatusUpdate c.buyFn c.sellFn c.time st c.openPositions
    let cont := runCycles step.1 rest
    (cont.1, step.2 ++ cont.2)

/-- The ids inserted into the ledger by a successful buy somewhere in a
trace. -/
def successBuyIds (calls : List TradeCall) : List String :=
  calls.filterMap (fun c =>
    match c with
    | TradeCall.buy p (OrderOutcome.success _ _) => some p.id
    | _ => none)

/-- The number of sell-gateway calls for a given position id in a trace. -/
def sellCallCount (calls : List TradeCall) (id : String) : ℕ :=
  (calls.filter (fun c =>
    match c with
    | TradeCall.sell p _ => decide (p.id = id)
    | _ => false)).length

/-- The number of buy-gateway calls for a given position id in a trace. -/
def buyCallCount (calls : List TradeCall) (id : String) : ℕ :=
  (calls.filter (fun c =>
    match c with
    | TradeCall.buy p _ => decide (p.id = id)
    | _ => false)).length

/-! ### Theorems about the position tracker -/

/-- Characterization of `detectChanges` on snapshots with equal position
counts in which every current position is matched by id in the prior
snapshot: it reports a change exactly when some matched pair's absolute
quantity delta strictly exceeds `max 1 (1% of prior quantity)`, or the
relative total-value delta strictly exceeds 1%. -/
theorem detectChanges_matched_iff (last status : TradingStatus)
    (hlen : status.openPositions.length = last.openPositions.length)
    (hmatch : ∀ p ∈ status.openPositions,
      (mapGet (mapOfList last.openPositions) p.id).isSome = true) :
    detectChanges (some last) status = true ↔
      ((∃ p ∈ status.openPositions, ∃ q,
        mapGet (mapOfList last.openPositions) p.id = some q ∧
        |p.quantity - q.quantity| > max 1 (q.quantity * (1/100))) ∨
      |status.totalValue - last.totalValue| / max last.totalValue (1/100)
        > 1/100) := by
  have hlen' : ¬ status.openPositions.length ≠ last.openPositions.length := by
    simp [hlen]
  simp only [detectChanges, if_neg hlen']
  by_cases hany : (status.openPositions.any (fun current =>
      match mapGet (mapOfList last.openPositions) current.id with
      | none => true
      | some previous => decide (|current.quantity - previous.quantity| >
          max 1 (previous.quantity * (1/100))))) = true
  · rw [if_pos hany]
    simp only [true_iff]
    left
    rw [List.any_eq_true] at hany
    obtain ⟨p, hp, hfp⟩ := hany
    refine ⟨p, hp, ?_⟩
    have hs := hmatch p hp
    cases hq : mapGet (mapOfList last.openPositions) p.id with
    | none => rw [hq] at hs; simp at hs
    | some q =>
      rw [hq] at hfp
      simp only [decide_eq_true_eq] at hfp
      exact ⟨q, rfl, hfp⟩
  · rw [if_neg hany]
    rw [decide_eq_true_eq]
    constructor
    · exact fun hV => Or.inr hV
    · intro h
      rcases h with hex | hV
      · exfalso
        apply hany
        rw [List.any_eq_true]
        obtain ⟨p, hp, q, hq, hgt⟩ := hex
        refine ⟨p, hp, ?_⟩
        rw [hq]
        simpa using hgt
      · exact hV

/-- C5: for every pair of snapshots with equal position counts and every
current position matched by id in the prior snapshot, the per-position
quantity check contributes "changed" exactly when the absolute quantity delta
strictly exceeds `max 1 (1% of prior quantity)`: `detectChanges` reports a
change iff some matched pair strictly exceeds its threshold or the aggregate
value check fires, so a delta strictly below the threshold never flags a
change and a delta strictly above always does. -/
theorem detectChanges_quantity_threshold (last status : TradingStatus)
    (hlen : status.openPositions.length = last.openPositions.length)
    (hmatch : ∀ p ∈ status.openPositions,
      (mapGet (mapOfList last.openPositions) p.id).isSome = true) :
    detectChanges (some last) status = true ↔
      ((∃ p ∈ status.openPositions, ∃ q,
        mapGet (mapOfList last.openPositions) p.id = some q ∧
        |p.quantity - q.quantity| > max 1 (q.quantity * (1/100))) ∨
      |status.totalValue - last.totalValue| / max last.totalValue (1/100)
        > 1/100) :=
  detectChanges_matched_iff last status hlen hmatch

/-- A concrete position fixture used by the witnesses. -/
def posW (i : String) (q : ℚ) : Position :=
  { id := i, question := "m", outcome := "YES", quantity := q, price := 1/2 }

/-- Prior snapshot for the C5 witness. -/
def lastW5 : TradingStatus :=
  { totalPositions := 1, totalValue := 5, openPositions := [posW "1" 10] }

/-- Current snapshot for the C5 witness: quantity delta 2 > max 1 (10/100). -/
def currW5 : TradingStatus :=
  { totalPositions := 1, totalValue := 5, openPositions := [posW "1" 12] }

theorem detectChanges_quantity_threshold_witness :
    (currW5.openPositions.length = lastW5.openPositions.length) ∧
    ((∀ p ∈ currW5.openPositions,
      (mapGet (mapOfList lastW5.openPositions) p.id).isSome = true) ∧
    (detectChanges (some lastW5) currW5 = true ↔
      ((∃ p ∈ currW5.openPositions, ∃ q,
        mapGet (mapOfList lastW5.openPositions) p.id = some q ∧
        |p.quantity - q.quantity| > max 1 (q.quantity * (1/100))) ∨
      |currW5.totalValue - lastW5.totalValue| / max lastW5.totalValue (1/100)
        > 1/100))) :=
  ⟨by decide, by decide,
    detectChanges_quantity_threshold lastW5 currW5 (by decide) (by decide)⟩

/-- C6: change detection reports "changed" whenever no prior snapshot is
stored, and whenever the position counts differ, regardless of every other
field of the snapshots. -/
theorem detectChanges_none_or_count_change (last status : TradingStatus)
    (h : status.openPositions.length ≠ last.openPositions.length) :
    detectChanges none status = true ∧
    detectChanges (some last) status = true := by
  refine ⟨rfl, ?_⟩
  simp only [detectChanges, if_pos h]

theorem detectChanges_none_or_count_change_witness :
    (currW5.openPositions.length ≠
      (⟨0, 0, []⟩ : TradingStatus).openPositions.length) ∧
    (detectChanges none currW5 = true ∧
      detectChanges (some ⟨0, 0, []⟩) currW5 = true) :=
  ⟨by decide, detectChanges_none_or_count_change ⟨0, 0, []⟩ currW5 (by decide)⟩

/-- C7: when position counts match, every current position is matched by id,
and no matched quantity delta strictly exceeds its threshold, `detectChanges`
reports a change exactly when the relative total-value delta
`|curr - prev| / max prev 0.01` strictly exceeds `0.01`; the divisor is at
least `0.01`, hence strictly positive. -/
theorem detectChanges_value_threshold (last status : TradingStatus)
    (hlen : status.openPositions.length = last.openPositions.length)
    (hmatch : ∀ p ∈ status.openPositions,
      (mapGet (mapOfList last.openPositions) p.id).isSome = true)
    (hq : ∀ p ∈ status.openPositions, ∀ q,
      mapGet (mapOfList last.openPositions) p.id = some q →
      ¬(|p.quantity - q.quantity| > max 1 (q.quantity * (1/100)))) :
    ((1/100 : ℚ) ≤ max last.totalValue (1/100) ∧
      (0 : ℚ) < max last.totalValue (1/100)) ∧
    (detectChanges (some last) status = true ↔
      |status.totalValue - last.totalValue| / max last.totalValue (1/100)
        > 1/100) := by
  refine ⟨⟨le_max_right _ _, lt_of_lt_of_le (by norm_num) (le_max_right _ _)⟩, ?_⟩
  rw [detectChanges_matched_iff last status hlen hmatch]
  constructor
  · intro h
    rcases h with hex | hV
    · obtain ⟨p, hp, q, hmg, hgt⟩ := hex
      exact absurd hgt (hq p hp q hmg)
    · exact hV
  · exact Or.inr

/-- Prior snapshot for the C7 witness (no open positions, value 50). -/
def lastW7 : TradingStatus :=
  { totalPositions := 0, totalValue := 50, openPositions := [] }

/-- Current snapshot for the C7 witness: relative value delta 1/10, above the
1% threshold. -/
def currW7 : TradingStatus :=
  { totalPositions := 0, totalValue := 55, openPositions := [] }

theorem detectChanges_value_threshold_witness :
    (currW7.openPositions.length = lastW7.openPositions.length) ∧
    (((1/100 : ℚ) ≤ max lastW7.totalValue (1/100) ∧
      (0 : ℚ) < max lastW7.totalValue (1/100)) ∧
    (detectChanges (some lastW7) currW7 = true ↔
      |currW7.totalValue - lastW7.totalValue| / max lastW7.totalValue (1/100)
        > 1/100)) :=
  ⟨rfl, detectChanges_value_threshold lastW7 currW7 rfl
    (fun p hp => absurd hp (List.not_mem_nil p))
    (fun p hp => absurd hp (List.not_mem_nil p))⟩

/-- C9: on a fetch failure, `getStatus` invokes the error callback once with
the failure and propagates the failure to its caller; a fetch failure inside
a poll cycle (`updateStatus`) leaves the stored tracker state — in particular
the last snapshot — unchanged. -/
theorem getStatus_error_propagates (e : String) (now : ℕ) (tr : TrackerState) :
    getStatus (Except.error e) = ([e], Except.error e) ∧
    (updateStatus (Except.error e) now tr).1 = tr :=
  ⟨rfl, rfl⟩

/-- C10: a poll cycle whose fetch fails invokes the error callback exactly
twice for the single failure: once inside `getStatus` before it rethrows, and
once more in `updateStatus`'s own catch handler. -/
theorem updateStatus_error_callback_twice (e : String) (now : ℕ)
    (tr : TrackerState) :
    (updateStatus (Except.error e) now tr).2.1 = [e, e] :=
  rfl

/-! ### Support lemmas about the `Map`/`Set` embedding -/

theorem setHas_iff (s : List String) (x : String) :
    setHas s x = true ↔ x ∈ s := by
  simp [setHas]

theorem mem_setAdd (s : List String) (x y : String) :
    y ∈ setAdd s x ↔ y ∈ s ∨ y = x := by
  unfold setAdd
  by_cases h : x ∈ s
  · rw [if_pos h]
    constructor
    · exact Or.inl
    · rintro (hy | rfl)
      · exact hy
      · exact h
  · rw [if_neg h]
    simp

theorem mem_setDelete (s : List String) (x y : String) :
    y ∈ setDelete s x ↔ y ∈ s ∧ y ≠ x := by
  simp [setDelete]

theorem keys_mapSet (m : List (String × Position)) (k : String) (v : Position) :
    (mapSet m k v).map Prod.fst =
      if k ∈ m.map Prod.fst then m.map Prod.fst else m.map Prod.fst ++ [k] := by
  unfold mapSet
  by_cases h : k ∈ m.map Prod.fst
  · rw [if_pos h, if_pos h, List.map_map]
    apply List.map_congr_left
    intro e _
    by_cases he : e.1 = k
    · simp [he]
    · simp [he]
  · rw [if_neg h, if_neg h, List.map_append]
    rfl

theorem keys_foldl_mapSet (ps : List Position) :
    ∀ (m : List (String × Position)) (k : String),
      (k ∈ (ps.foldl (fun m p => mapSet m p.id p) m).map Prod.fst ↔
        k ∈ m.map Prod.fst ∨ k ∈ ps.map Position.id) := by
  induction ps with
  | nil => intro m k; simp
  | cons p ps ih =>
    intro m k
    rw [List.foldl_cons, ih (mapSet m p.id p) k]
    rw [keys_mapSet]
    by_cases h : p.id ∈ m.map Prod.fst
    · rw [if_pos h]
      simp only [List.map_cons, List.mem_cons]
      constructor
      · rintro (hk | hk)
        · exact Or.inl hk
        · exact Or.inr (Or.inr hk)
      · rintro (hk | rfl | hk)
        · exact Or.inl hk
        · exact Or.inl h
        · exact Or.inr hk
    · rw [if_neg h]
      simp only [List.mem_append, List.mem_singleton, List.map_cons,
        List.mem_cons]
      tauto

theorem mem_keys_mapOfList (ps : List Position) (k : String) :
    k ∈ (mapOfList ps).map Prod.fst ↔ k ∈ ps.map Position.id := by
  have h := keys_foldl_mapSet ps [] k
  simpa [mapOfList] using h

theorem mapHas_mapOfList (ps : List Position) (k : String) :
    mapHas (mapOfList ps) k = true ↔ k ∈ ps.map Position.id := by
  rw [mapHas, decide_eq_true_eq]
  exact mem_keys_mapOfList ps k

theorem nodup_keys_mapSet (m : List (String × Position)) (k : String)
    (v : Position) (h : (m.map Prod.fst).Nodup) :
    ((mapSet m k v).map Prod.fst).Nodup := by
  rw [keys_mapSet]
  by_cases hk : k ∈ m.map Prod.fst
  · rw [if_pos hk]; exact h
  · rw [if_neg hk]; simp [List.nodup_append, h, hk]

theorem nodup_keys_foldl_mapSet (ps : List Position) :
    ∀ (m : List (String × Position)), (m.map Prod.fst).Nodup →
      ((ps.foldl (fun m p => mapSet m p.id p) m).map Prod.fst).Nodup := by
  induction ps with
  | nil => intro m h; simpa using h
  | cons p ps ih =>
    intro m h
    rw [List.foldl_cons]
    exact ih (mapSet m p.id p) (nodup_keys_mapSet m p.id p h)

theorem nodup_keys_mapOfList (ps : List Position) :
    ((mapOfList ps).map Prod.fst).Nodup :=
  nodup_keys_foldl_mapSet ps [] (by simp)

theorem fst_eq_id_mapSet (m : List (String × Position)) (k : String)
    (v : Position) (hm : ∀ e ∈ m, e.1 = e.2.id) (hkv : k = v.id) :
    ∀ e ∈ mapSet m k v, e.1 = e.2.id := by
  unfold mapSet
  by_cases h : k ∈ m.map Prod.fst
  · rw [if_pos h]
    intro e he
    rw [List.mem_map] at he
    obtain ⟨e', he', rfl⟩ := he
    by_cases h1 : e'.1 = k
    · simp only [if_pos h1]; exact hkv
    · simp only [if_neg h1]; exact hm e' he'
  · rw [if_neg h]
    intro e he
    rcases List.mem_append.mp he with he' | he'
    · exact hm e he'
    · rw [List.mem_singleton] at he'
      subst he'
      exact hkv

theorem fst_eq_id_foldl_mapSet (ps : List Position) :
    ∀ (m : List (String × Position)), (∀ e ∈ m, e.1 = e.2.id) →
      ∀ e ∈ ps.foldl (fun m p => mapSet m p.id p) m, e.1 = e.2.id := by
  induction ps with
  | nil => intro m h; simpa using h
  | cons p ps ih =>
    intro m h
    rw [List.foldl_cons]
    exact ih (mapSet m p.id p) (fst_eq_id_mapSet m p.id p h rfl)

theorem fst_eq_id_mapOfList (ps : List Position) :
    ∀ e ∈ mapOfList ps, e.1 = e.2.id :=
  fst_eq_id_foldl_mapSet ps [] (by simp)

/-- Well-formedness of an id-keyed map: keys are duplicate-free and each
entry is keyed by its value's id.  `mapOfList` always produces a well-formed
map, and the executor's `targetPositions` is `[]` initially and a `mapOfList`
after every cycle. -/
def mapWF (m : List (String × Position)) : Prop :=
  (m.map Prod.fst).Nodup ∧ ∀ e ∈ m, e.1 = e.2.id

theorem mapWF_mapOfList (ps : List Position) : mapWF (mapOfList ps) :=
  ⟨nodup_keys_mapOfList ps, fst_eq_id_mapOfList ps⟩


/-! ### Support lemmas about the buy and sell loops -/

theorem exec_applyBuyResult_mem (st : ExecState) (p : Position)
    (r : OrderOutcome) (time : ℕ) (id : String) :
    id ∈ (applyBuyResult st p r time).executedPositions ↔
      id ∈ st.executedPositions ∨
        (id = p.id ∧ ∃ q pr, r = OrderOutcome.success q pr) := by
  cases r with
  | success q pr => simp [applyBuyResult, mem_setAdd]
  | failure e => simp [applyBuyResult]
  | thrown m => simp [applyBuyResult]

theorem exec_applySellResult_mem (st : ExecState) (p : Position)
    (r : OrderOutcome) (time : ℕ) (id : String) :
    id ∈ (applySellResult st p r time).executedPositions ↔
      id ∈ st.executedPositions ∧
        ((∃ q pr, r = OrderOutcome.success q pr) → id ≠ p.id) := by
  cases r with
  | success q pr => simp [applySellResult, mem_setDelete]
  | failure e => simp [applySellResult]
  | thrown m => simp [applySellResult]

theorem buyLoop_calls_shape (b : Position → OrderOutcome) (t : ℕ) :
    ∀ (ps : List Position) (st : ExecState) (c : TradeCall),
      c ∈ (buyLoop b t ps st).2 → ∃ p, p ∈ ps ∧ c = TradeCall.buy p (b p) := by
  intro ps
  induction ps with
  | nil => intro st c hc; simp [buyLoop] at hc
  | cons p ps ih =>
    intro st c hc
    cases hg : setHas st.executedPositions p.id with
    | true =>
      rw [buyLoop, hg] at hc
      simp only [if_pos] at hc
      obtain ⟨p', hp', hc'⟩ := ih st c hc
      exact ⟨p', List.mem_cons_of_mem p hp', hc'⟩
    | false =>
      rw [buyLoop, hg] at hc
      simp only [Bool.false_eq_true, if_false, List.mem_cons] at hc
      rcases hc with rfl | hc
      · exact ⟨p, List.mem_cons_self p ps, rfl⟩
      · obtain ⟨p', hp', hc'⟩ := ih _ c hc
        exact ⟨p', List.mem_cons_of_mem p hp', hc'⟩

theorem sellLoop_calls_shape (s : Position → OrderOutcome) (t : ℕ) :
    ∀ (ps : List Position) (st : ExecState) (c : TradeCall),
      c ∈ (sellLoop s t ps st).2 → ∃ p, p ∈ ps ∧ c = TradeCall.sell p (s p) := by
  intro ps
  induction ps with
  | nil => intro st c hc; simp [sellLoop] at hc
  | cons p ps ih =>
    intro st c hc
    cases hg : setHas st.executedPositions p.id with
    | false =>
      rw [sellLoop, hg] at hc
      simp only [Bool.not_false, if_pos] at hc
      obtain ⟨p', hp', hc'⟩ := ih st c hc
      exact ⟨p', List.mem_cons_of_mem p hp', hc'⟩
    | true =>
      rw [sellLoop, hg] at hc
      simp only [Bool.not_true, Bool.false_eq_true, if_false,
        List.mem_cons] at hc
      rcases hc with rfl | hc
      · exact ⟨p, List.mem_cons_self p ps, rfl⟩
      · obtain ⟨p', hp', hc'⟩ := ih _ c hc
        exact ⟨p', List.mem_cons_of_mem p hp', hc'⟩

theorem buyLoop_exec_not_mem (b : Position → OrderOutcome) (t : ℕ)
    (id : String) :
    ∀ (ps : List Position) (st : ExecState), id ∉ ps.map Position.id →
      (id ∈ (buyLoop b t ps st).1.executedPositions ↔
        id ∈ st.executedPositions) := by
  intro ps
  induction ps with
  | nil => intro st _; simp [buyLoop]
  | cons p ps ih =>
    intro st hid
    simp only [List.map_cons, List.mem_cons, not_or] at hid
    obtain ⟨hne, hid'⟩ := hid
    cases hg : setHas st.executedPositions p.id with
    | true =>
      rw [buyLoop, hg]
      simp only [if_pos]
      exact ih st hid'
    | false =>
      rw [buyLoop, hg]
      simp only [Bool.false_eq_true, if_false]
      rw [ih _ hid', exec_applyBuyResult_mem]
      constructor
      · rintro (h | ⟨rfl, _⟩)
        · exact h
        · exact absurd rfl hne
      · exact Or.inl

theorem sellLoop_exec_not_mem (s : Position → OrderOutcome) (t : ℕ)
    (id : String) :
    ∀ (ps : List Position) (st : ExecState), id ∉ ps.map Position.id →
      (id ∈ (sellLoop s t ps st).1.executedPositions ↔
        id ∈ st.executedPositions) := by
  intro ps
  induction ps with
  | nil => intro st _; simp [sellLoop]
  | cons p ps ih =>
    intro st hid
    simp only [List.map_cons, List.mem_cons, not_or] at hid
    obtain ⟨hne, hid'⟩ := hid
    cases hg : setHas st.executedPositions p.id with
    | false =>
      rw [sellLoop, hg]
      simp only [Bool.not_false, if_pos]
      exact ih st hid'
    | true =>
      rw [sellLoop, hg]
      simp only [Bool.not_true, Bool.false_eq_true, if_false]
      rw [ih _ hid', exec_applySellResult_mem]
      constructor
      · rintro ⟨h, _⟩; exact h
      · intro h; exact ⟨h, fun _ => hne⟩

theorem mem_successBuyIds_cons (c : TradeCall) (l : List TradeCall)
    (id : String) (h : id ∈ successBuyIds l) : id ∈ successBuyIds (c :: l) := by
  rw [successBuyIds, List.filterMap_cons]
  cases hm : (match c with
    | TradeCall.buy p (OrderOutcome.success _ _) => some p.id
    | _ => none) with
  | none =>
    try rw [hm]
    exact h
  | some x =>
    try rw [hm]
    exact List.mem_cons_of_mem x h

theorem mem_successBuyIds_head (p : Position) (q pr : Option ℚ)
    (l : List TradeCall) :
    p.id ∈ successBuyIds (TradeCall.buy p (OrderOutcome.success q pr) :: l) := by
  rw [successBuyIds, List.filterMap_cons]
  exact List.mem_cons_self _ _

theorem buyLoop_exec_subset (b : Position → OrderOutcome) (t : ℕ)
    (id : String) :
    ∀ (ps : List Position) (st : ExecState),
      id ∈ (buyLoop b t ps st).1.executedPositions →
      id ∈ st.executedPositions ∨ id ∈ successBuyIds (buyLoop b t ps st).2 := by
  intro ps
  induction ps with
  | nil => intro st h; exact Or.inl h
  | cons p ps ih =>
    intro st h
    cases hg : setHas st.executedPositions p.id with
    | true =>
      rw [buyLoop, hg] at h ⊢
      simp only [if_pos] at h ⊢
      exact ih st h
    | false =>
      rw [buyLoop, hg] at h ⊢
      simp only [Bool.false_eq_true, if_false] at h ⊢
      rcases ih _ h with h' | h'
      · rw [exec_applyBuyResult_mem] at h'
        rcases h' with h' | ⟨rfl, q, pr, hb⟩
        · exact Or.inl h'
        · right
          rw [hb]
          exact mem_successBuyIds_head p q pr _
      · exact Or.inr (mem_successBuyIds_cons _ _ _ h')

theorem sellLoop_exec_subset (s : Position → OrderOutcome) (t : ℕ)
    (id : String) :
    ∀ (ps : List Position) (st : ExecState),
      id ∈ (sellLoop s t ps st).1.executedPositions →
      id ∈ st.executedPositions := by
  intro ps
  induction ps with
  | nil => intro st h; exact h
  | cons p ps ih =>
    intro st h
    cases hg : setHas st.executedPositions p.id with
    | false =>
      rw [sellLoop, hg] at h
      simp only [Bool.not_false, if_pos] at h
      exact ih st h
    | true =>
      rw [sellLoop, hg] at h
      simp only [Bool.not_true, Bool.false_eq_true, if_false] at h
      have h' := ih _ h
      rw [exec_applySellResult_mem] at h'
      exact h'.1

theorem sellLoop_sell_guard (s : Position → OrderOutcome) (t : ℕ) :
    ∀ (ps : List Position) (st : ExecState) (p : Position)
      (out : OrderOutcome),
      TradeCall.sell p out ∈ (sellLoop s t ps st).2 →
      p.id ∈ st.executedPositions := by
  intro ps
  induction ps with
  | nil => intro st p out h; simp [sellLoop] at h
  | cons q ps ih =>
    intro st p out h
    cases hg : setHas st.executedPositions q.id with
    | false =>
      rw [sellLoop, hg] at h
      simp only [Bool.not_false, if_pos] at h
      exact ih st p out h
    | true =>
      rw [sellLoop, hg] at h
      simp only [Bool.not_true, Bool.false_eq_true, if_false,
        List.mem_cons, TradeCall.sell.injEq] at h
      rcases h with ⟨rfl, _⟩ | h
      · exact (setHas_iff _ _).mp hg
      · have h' := ih _ p out h
        rw [exec_applySellResult_mem] at h'
        exact h'.1

/-! ### Counting gateway calls -/

theorem buyCallCount_cons_buy (p : Position) (out : OrderOutcome)
    (l : List TradeCall) (id : String) :
    buyCallCount (TradeCall.buy p out :: l) id =
      (if p.id = id then 1 else 0) + buyCallCount l id := by
  rw [buyCallCount, buyCallCount, List.filter_cons]
  by_cases h : p.id = id
  · simp [h, Nat.add_comm]
  · simp [h]

theorem buyCallCount_cons_sell (p : Position) (out : OrderOutcome)
    (l : List TradeCall) (id : String) :
    buyCallCount (TradeCall.sell p out :: l) id = buyCallCount l id := by
  simp [buyCallCount, List.filter_cons]

theorem sellCallCount_cons_sell (p : Position) (out : OrderOutcome)
    (l : List TradeCall) (id : String) :
    sellCallCount (TradeCall.sell p out :: l) id =
      (if p.id = id then 1 else 0) + sellCallCount l id := by
  rw [sellCallCount, sellCallCount, List.filter_cons]
  by_cases h : p.id = id
  · simp [h, Nat.add_comm]
  · simp [h]

theorem sellCallCount_cons_buy (p : Position) (out : OrderOutcome)
    (l : List TradeCall) (id : String) :
    sellCallCount (TradeCall.buy p out :: l) id = sellCallCount l id := by
  simp [sellCallCount, List.filter_cons]

theorem buyCallCount_append (l1 l2 : List TradeCall) (id : String) :
    buyCallCount (l1 ++ l2) id = buyCallCount l1 id + buyCallCount l2 id := by
  simp [buyCallCount, List.filter_append]

theorem sellCallCount_append (l1 l2 : List TradeCall) (id : String) :
    sellCallCount (l1 ++ l2) id = sellCallCount l1 id + sellCallCount l2 id := by
  simp [sellCallCount, List.filter_append]

theorem buyCallCount_zero_of_no_id (l : List TradeCall) (id : String)
    (h : ∀ p out, TradeCall.buy p out ∈ l → p.id ≠ id) :
    buyCallCount l id = 0 := by
  rw [buyCallCount, List.length_eq_zero, List.filter_eq_nil_iff]
  intro c hc
  cases c with
  | buy p out => simp [h p out hc]
  | sell p out => simp

theorem sellCallCount_zero_of_no_id (l : List TradeCall) (id : String)
    (h : ∀ p out, TradeCall.sell p out ∈ l → p.id ≠ id) :
    sellCallCount l id = 0 := by
  rw [sellCallCount, List.length_eq_zero, List.filter_eq_nil_iff]
  intro c hc
  cases c with
  | buy p out => simp
  | sell p out => simp [h p out hc]

theorem buyLoop_no_id_count (b : Position → OrderOutcome) (t : ℕ) (id : String)
    (ps : List Position) (st : ExecState) (h : ∀ p ∈ ps, p.id ≠ id) :
    buyCallCount (buyLoop b t ps st).2 id = 0 := by
  apply buyCallCount_zero_of_no_id
  intro p out hc
  obtain ⟨p', hp', heq⟩ := buyLoop_calls_shape b t ps st _ hc
  simp only [TradeCall.buy.injEq] at heq
  obtain ⟨rfl, -⟩ := heq
  exact h p hp'

theorem sellLoop_no_id_count (s : Position → OrderOutcome) (t : ℕ) (id : String)
    (ps : List Position) (st : ExecState) (h : ∀ p ∈ ps, p.id ≠ id) :
    sellCallCount (sellLoop s t ps st).2 id = 0 := by
  apply sellCallCount_zero_of_no_id
  intro p out hc
  obtain ⟨p', hp', heq⟩ := sellLoop_calls_shape s t ps st _ hc
  simp only [TradeCall.sell.injEq] at heq
  obtain ⟨rfl, -⟩ := heq
  exact h p hp'

theorem buyLoop_count (b : Position → OrderOutcome) (t : ℕ) (id : String) :
    ∀ (ps : List Position) (st : ExecState),
      (ps.filter (fun p => decide (p.id = id))).length ≤ 1 →
      buyCallCount (buyLoop b t ps st).2 id =
        ((ps.filter (fun p => decide (p.id = id))).filter
          (fun p => !(setHas st.executedPositions p.id))).length := by
  intro ps
  induction ps with
  | nil => intro st _; simp [buyLoop, buyCallCount]
  | cons p ps ih =>
    intro st huniq
    by_cases hpid : p.id = id
    · have hcons : ((p :: ps).filter (fun q => decide (q.id = id))) =
          p :: ps.filter (fun q => decide (q.id = id)) := by
        simp [List.filter_cons, hpid]
      have hfil : ps.filter (fun q => decide (q.id = id)) = [] := by
        rw [hcons] at huniq
        simp only [List.length_cons] at huniq
        exact List.length_eq_zero.mp (by omega)
      have hnops : ∀ q ∈ ps, q.id ≠ id := by
        intro q hq hqid
        have hmem : q ∈ ps.filter (fun q => decide (q.id = id)) :=
          List.mem_filter.mpr ⟨hq, by simp [hqid]⟩
        rw [hfil] at hmem
        exact absurd hmem (List.not_mem_nil q)
      cases hg : setHas st.executedPositions p.id with
      | true =>
        rw [buyLoop, hg]
        simp only [if_pos]
        rw [buyLoop_no_id_count b t id ps st hnops, hcons, hfil]
        simp [List.filter_cons, hg]
      | false =>
        rw [buyLoop, hg]
        simp only [Bool.false_eq_true, if_false]
        rw [buyCallCount_cons_buy, if_pos hpid,
          buyLoop_no_id_count b t id ps _ hnops, hcons, hfil]
        simp [List.filter_cons, hg]
    · have hcons : ((p :: ps).filter (fun q => decide (q.id = id))) =
          ps.filter (fun q => decide (q.id = id)) := by
        simp [List.filter_cons, hpid]
      rw [hcons] at huniq
      cases hg : setHas st.executedPositions p.id with
      | true =>
        rw [buyLoop, hg]
        simp only [if_pos]
        rw [ih st huniq, hcons]
      | false =>
        rw [buyLoop, hg]
        simp only [Bool.false_eq_true, if_false]
        rw [buyCallCount_cons_buy, if_neg hpid, Nat.zero_add,
          ih _ huniq, hcons]
        congr 1
        apply List.filter_congr
        intro q hq
        have hqid : q.id = id := by
          have := (List.mem_filter.mp hq).2
          simpa using this
        have hmemiff : id ∈ (applyBuyResult st p (b p) t).executedPositions ↔
            id ∈ st.executedPositions := by
          rw [exec_applyBuyResult_mem]
          constructor
          · rintro (h | ⟨rfl, _⟩)
            · exact h
            · exact absurd rfl hpid
          · exact Or.inl
        rw [hqid]
        unfold setHas
        exact congrArg (fun x => !x) (decide_eq_decide.mpr hmemiff)

theorem sellLoop_count (s : Position → OrderOutcome) (t : ℕ) (id : String) :
    ∀ (ps : List Position) (st : ExecState),
      (ps.filter (fun p => decide (p.id = id))).length ≤ 1 →
      sellCallCount (sellLoop s t ps st).2 id =
        ((ps.filter (fun p => decide (p.id = id))).filter
          (fun p => setHas st.executedPositions p.id)).length := by
  intro ps
  induction ps with
  | nil => intro st _; simp [sellLoop, sellCallCount]
  | cons p ps ih =>
    intro st huniq
    by_cases hpid : p.id = id
    · have hcons : ((p :: ps).filter (fun q => decide (q.id = id))) =
          p :: ps.filter (fun q => decide (q.id = id)) := by
        simp [List.filter_cons, hpid]
      have hfil : ps.filter (fun q => decide (q.id = id)) = [] := by
        rw [hcons] at huniq
        simp only [List.length_cons] at huniq
        exact List.length_eq_zero.mp (by omega)
      have hnops : ∀ q ∈ ps, q.id ≠ id := by
        intro q hq hqid
        have hmem : q ∈ ps.filter (fun q => decide (q.id = id)) :=
          List.mem_filter.mpr ⟨hq, by simp [hqid]⟩
        rw [hfil] at hmem
        exact absurd hmem (List.not_mem_nil q)
      cases hg : setHas st.executedPositions p.id with
      | false =>
        rw [sellLoop, hg]
        simp only [Bool.not_false, if_pos]
        rw [sellLoop_no_id_count s t id ps st hnops, hcons, hfil]
        simp [List.filter_cons, hg]
      | true =>
        rw [sellLoop, hg]
        simp only [Bool.not_true, Bool.false_eq_true, if_false]
        rw [sellCallCount_cons_sell, if_pos hpid,
          sellLoop_no_id_count s t id ps _ hnops, hcons, hfil]
        simp [List.filter_cons, hg]
    · have hcons : ((p :: ps).filter (fun q => decide (q.id = id))) =
          ps.filter (fun q => decide (q.id = id)) := by
        simp [List.filter_cons, hpid]
      rw [hcons] at huniq
      cases hg : setHas st.executedPositions p.id with
      | false =>
        rw [sellLoop, hg]
        simp only [Bool.not_false, if_pos]
        rw [ih st huniq, hcons]
      | true =>
        rw [sellLoop, hg]
        simp only [Bool.not_true, Bool.false_eq_true, if_false]
        rw [sellCallCount_cons_sell, if_neg hpid, Nat.zero_add,
          ih _ huniq, hcons]
        congr 1
        apply List.filter_congr
        intro q hq
        have hqid : q.id = id := by
          have := (List.mem_filter.mp hq).2
          simpa using this
        have hmemiff : id ∈ (applySellResult st p (s p) t).executedPositions ↔
            id ∈ st.executedPositions := by
          rw [exec_applySellResult_mem]
          constructor
          · rintro ⟨h, _⟩; exact h
          · intro h
            refine ⟨h, fun _ hip => ?_⟩
            exact hpid hip.symm
        rw [hqid]
        unfold setHas
        exact decide_eq_decide.mpr hmemiff

/-! ### Counting positions selected by the diff -/

theorem length_filter_const {α : Type} (l : List α) (c : Bool) :
    (l.filter (fun _ => c)).length = if c = true then l.length else 0 := by
  cases c <;> simp

theorem filtered_values_count (g : String → Bool) (id : String) :
    ∀ (m : List (String × Position)), (m.map Prod.fst).Nodup →
      (∀ e ∈ m, e.1 = e.2.id) →
      (((m.filter (fun e => g e.1)).map Prod.snd).filter
        (fun p => decide (p.id = id))).length =
      if id ∈ m.map Prod.fst ∧ g id = true then 1 else 0 := by
  intro m
  induction m with
  | nil => intro _ _; simp
  | cons e m ih =>
    intro hnd hwf
    simp only [List.map_cons, List.nodup_cons] at hnd
    obtain ⟨hnotin, hnd'⟩ := hnd
    have hewf : e.1 = e.2.id := hwf e (List.mem_cons_self e m)
    have hwf' : ∀ e' ∈ m, e'.1 = e'.2.id :=
      fun e' he' => hwf e' (List.mem_cons_of_mem e he')
    by_cases hga : g e.1 = true
    · rw [List.filter_cons, if_pos (by simpa using hga)]
      rw [List.map_cons, List.filter_cons]
      by_cases heid : e.1 = id
      · have h2 : decide (e.2.id = id) = true := by
          simp [← hewf, heid]
        rw [if_pos (by simpa using h2)]
        simp only [List.length_cons]
        rw [ih hnd' hwf']
        have hnot : id ∉ m.map Prod.fst := by rw [← heid]; exact hnotin
        rw [if_neg (by simp [hnot]), if_pos]
        constructor
        · simp [← heid]
        · rw [← heid]; exact hga
      · have h2 : ¬ (decide (e.2.id = id) = true) := by
          simp [← hewf, heid]
        rw [if_neg h2]
        rw [ih hnd' hwf']
        have : id ∈ (e :: m).map Prod.fst ↔ id ∈ m.map Prod.fst := by
          simp [List.map_cons, List.mem_cons]
          intro h; exact absurd h.symm heid
        by_cases hm : id ∈ m.map Prod.fst ∧ g id = true
        · rw [if_pos hm, if_pos ⟨this.mpr hm.1, hm.2⟩]
        · rw [if_neg hm, if_neg (fun hc => hm ⟨this.mp hc.1, hc.2⟩)]
    · rw [List.filter_cons, if_neg (by simpa using hga)]
      rw [ih hnd' hwf']
      by_cases heid : e.1 = id
      · have hgid : ¬ (g id = true) := by rw [← heid]; exact hga
        rw [if_neg (fun hc => hgid hc.2), if_neg (fun hc => hgid hc.2)]
      · have : id ∈ (e :: m).map Prod.fst ↔ id ∈ m.map Prod.fst := by
          simp [List.map_cons, List.mem_cons]
          intro h; exact absurd h.symm heid
        by_cases hm : id ∈ m.map Prod.fst ∧ g id = true
        · rw [if_pos hm, if_pos ⟨this.mpr hm.1, hm.2⟩]
        · rw [if_neg hm, if_neg (fun hc => hm ⟨this.mp hc.1, hc.2⟩)]

theorem values_filter_ids (g : String → Bool) (m : List (String × Position))
    (hwf : ∀ e ∈ m, e.1 = e.2.id) (p : Position)
    (hp : p ∈ (m.filter (fun e => g e.1)).map Prod.snd) :
    p.id ∈ m.map Prod.fst := by
  rw [List.mem_map] at hp
  obtain ⟨e, he, rfl⟩ := hp
  have he' : e ∈ m := List.mem_of_mem_filter he
  rw [← hwf e he']
  exact List.mem_map_of_mem Prod.fst he'

/-! ### Per-cycle characterizations of the gateway calls -/

theorem handle_trace (b s : Position → OrderOutcome) (t : ℕ) (st : ExecState)
    (ops : List Position) :
    (handleStatusUpdate b s t st ops).2 =
      (buyLoop b t (newPositionsOf st ops) st).2 ++
      (sellLoop s t (closedPositionsOf st ops)
        (buyLoop b t (newPositionsOf st ops) st).1).2 :=
  rfl

theorem handle_target (b s : Position → OrderOutcome) (t : ℕ) (st : ExecState)
    (ops : List Position) :
    (handleStatusUpdate b s t st ops).1.targetPositions = mapOfList ops :=
  rfl

theorem handle_exec (b s : Position → OrderOutcome) (t : ℕ) (st : ExecState)
    (ops : List Position) :
    (handleStatusUpdate b s t st ops).1.executedPositions =
      (sellLoop s t (closedPositionsOf st ops)
        (buyLoop b t (newPositionsOf st ops) st).1).1.executedPositions :=
  rfl

/-- In one diff-and-execute cycle, the buy gateway is called for a given id
exactly once when the id is in the snapshot, not in the target map of the
prior cycle, and not in the execution ledger — and never otherwise. -/
theorem handle_buyCallCount (b s : Position → OrderOutcome) (t : ℕ)
    (st : ExecState) (ops : List Position) (id : String) :
    buyCallCount (handleStatusUpdate b s t st ops).2 id =
      if id ∈ ops.map Position.id ∧ mapHas st.targetPositions id = false ∧
          id ∉ st.executedPositions then 1 else 0 := by
  have hwf := mapWF_mapOfList ops
  have hsell0 : buyCallCount (sellLoop s t (closedPositionsOf st ops)
      (buyLoop b t (newPositionsOf st ops) st).1).2 id = 0 := by
    apply buyCallCount_zero_of_no_id
    intro p out hc
    obtain ⟨p', _, heq⟩ := sellLoop_calls_shape s t _ _ _ hc
    simp at heq
  have hnewfil : ((newPositionsOf st ops).filter
      (fun p => decide (p.id = id))).length =
      if id ∈ (mapOfList ops).map Prod.fst ∧
        (!(mapHas st.targetPositions id)) = true then 1 else 0 := by
    rw [newPositionsOf]
    exact filtered_values_count (fun k => !(mapHas st.targetPositions k)) id
      (mapOfList ops) hwf.1 hwf.2
  have hle : ((newPositionsOf st ops).filter
      (fun p => decide (p.id = id))).length ≤ 1 := by
    rw [hnewfil]; split <;> omega
  rw [handle_trace, buyCallCount_append, hsell0, Nat.add_zero,
    buyLoop_count b t id (newPositionsOf st ops) st hle]
  have hconst : ((newPositionsOf st ops).filter
      (fun p => decide (p.id = id))).filter
        (fun p => !(setHas st.executedPositions p.id)) =
      ((newPositionsOf st ops).filter
        (fun p => decide (p.id = id))).filter
        (fun _ => !(setHas st.executedPositions id)) := by
    apply List.filter_congr
    intro q hq
    have hqid : q.id = id := by simpa using (List.mem_filter.mp hq).2
    rw [hqid]
  rw [hconst, length_filter_const, hnewfil]
  simp only [mem_keys_mapOfList, Bool.not_eq_true', setHas,
    decide_eq_false_iff_not]
  by_cases h1 : id ∈ ops.map Position.id <;>
    by_cases h2 : mapHas st.targetPositions id = false <;>
      by_cases h3 : id ∈ st.executedPositions <;>
        simp [h1, h2, h3]

/-- In one diff-and-execute cycle over a well-formed target map, the sell
gateway is called for a given id exactly once when the id is in the target
map of the prior cycle, absent from the snapshot, and present in the
execution ledger — and never otherwise. -/
theorem handle_sellCallCount (b s : Position → OrderOutcome) (t : ℕ)
    (st : ExecState) (ops : List Position) (id : String)
    (hWF : mapWF st.targetPositions) :
    sellCallCount (handleStatusUpdate b s t st ops).2 id =
      if mapHas st.targetPositions id = true ∧ id ∉ ops.map Position.id ∧
          id ∈ st.executedPositions then 1 else 0 := by
  have hbuy0 : sellCallCount (buyLoop b t (newPositionsOf st ops) st).2 id
      = 0 := by
    apply sellCallCount_zero_of_no_id
    intro p out hc
    obtain ⟨p', _, heq⟩ := buyLoop_calls_shape b t _ _ _ hc
    simp at heq
  have hclofil : ((closedPositionsOf st ops).filter
      (fun p => decide (p.id = id))).length =
      if id ∈ st.targetPositions.map Prod.fst ∧
        (!(mapHas (mapOfList ops) id)) = true then 1 else 0 := by
    rw [closedPositionsOf]
    exact filtered_values_count (fun k => !(mapHas (mapOfList ops) k)) id
      st.targetPositions hWF.1 hWF.2
  have hle : ((closedPositionsOf st ops).filter
      (fun p => decide (p.id = id))).length ≤ 1 := by
    rw [hclofil]; split <;> omega
  rw [handle_trace, sellCallCount_append, hbuy0, Nat.zero_add,
    sellLoop_count s t id (closedPositionsOf st ops) _ hle]
  by_cases h1 : id ∈ ops.map Position.id
  · have hhas : mapHas (mapOfList ops) id = true := by
      rw [mapHas, decide_eq_true_eq]
      exact (mem_keys_mapOfList ops id).mpr h1
    have hclo : (closedPositionsOf st ops).filter
        (fun p => decide (p.id = id)) = [] := by
      rw [← List.length_eq_zero, hclofil, if_neg]
      rintro ⟨-, habs⟩
      rw [hhas] at habs
      simp at habs
    rw [hclo]
    simp [h1]
  · have hnotnew : id ∉ (newPositionsOf st ops).map Position.id := by
      intro hid
      rw [List.mem_map] at hid
      obtain ⟨q, hq, hqid⟩ := hid
      rw [newPositionsOf] at hq
      have hkey := values_filter_ids (fun k => !(mapHas st.targetPositions k))
        (mapOfList ops) (mapWF_mapOfList ops).2 q hq
      rw [mem_keys_mapOfList] at hkey
      rw [hqid] at hkey
      exact h1 hkey
    have hexecEq : id ∈ (buyLoop b t (newPositionsOf st ops)
        st).1.executedPositions ↔ id ∈ st.executedPositions :=
      buyLoop_exec_not_mem b t id (newPositionsOf st ops) st hnotnew
    have hconst : ((closedPositionsOf st ops).filter
        (fun p => decide (p.id = id))).filter
          (fun p => setHas
            (buyLoop b t (newPositionsOf st ops) st).1.executedPositions
              p.id) =
        ((closedPositionsOf st ops).filter
          (fun p => decide (p.id = id))).filter
          (fun _ => setHas st.executedPositions id) := by
      apply List.filter_congr
      intro q hq
      have hqid : q.id = id := by simpa using (List.mem_filter.mp hq).2
      rw [hqid]
      unfold setHas
      exact decide_eq_decide.mpr hexecEq
    rw [hconst, length_filter_const, hclofil]
    simp only [mem_keys_mapOfList, Bool.not_eq_true', mapHas,
      decide_eq_false_iff_not, decide_eq_true_eq, setHas]
    by_cases h2 : id ∈ st.targetPositions.map Prod.fst <;>
      by_cases h3 : id ∈ st.executedPositions <;>
        simp [h1, h2, h3]

/-! ### C3: failed or thrown orders -/

/-- C3: a buy or sell attempt that returns failure or throws changes only the
failed-trade counter: the execution ledger, executed-trade counter, cumulative
volume, last-trade timestamp and target map are unchanged, the post-attempt
state is exactly the prior state with the failed counter bumped, and the loop
continues processing the remaining positions of the cycle after the failed
attempt. -/
theorem order_failure_only_failed_counter
    (b s : Position → OrderOutcome) (t : ℕ) (st : ExecState) (p : Position)
    (ps : List Position) (e : String)
    (hb : b p = OrderOutcome.failure e ∨ b p = OrderOutcome.thrown e)
    (hs : s p = OrderOutcome.failure e ∨ s p = OrderOutcome.thrown e) :
    ((applyFailure st.stats).totalTradesFailed =
        st.stats.totalTradesFailed + 1 ∧
      (applyFailure st.stats).totalTradesExecuted =
        st.stats.totalTradesExecuted ∧
      (applyFailure st.stats).totalVolume = st.stats.totalVolume ∧
      (applyFailure st.stats).lastTradeTime = st.stats.lastTradeTime) ∧
    (applyBuyResult st p (b p) t = { st with stats := applyFailure st.stats } ∧
      applySellResult st p (s p) t =
        { st with stats := applyFailure st.stats }) ∧
    (setHas st.executedPositions p.id = false →
      buyLoop b t (p :: ps) st =
        ((buyLoop b t ps { st with stats := applyFailure st.stats }).1,
          TradeCall.buy p (b p) ::
            (buyLoop b t ps { st with stats := applyFailure st.stats }).2)) ∧
    (setHas st.executedPositions p.id = true →
      sellLoop s t (p :: ps) st =
        ((sellLoop s t ps { st with stats := applyFailure st.stats }).1,
          TradeCall.sell p (s p) ::
            (sellLoop s t ps { st with stats := applyFailure st.stats }).2)) := by
  have hbeq : applyBuyResult st p (b p) t =
      { st with stats := applyFailure st.stats } := by
    rcases hb with hb | hb <;> rw [hb] <;> rfl
  have hseq : applySellResult st p (s p) t =
      { st with stats := applyFailure st.stats } := by
    rcases hs with hs | hs <;> rw [hs] <;> rfl
  refine ⟨⟨rfl, rfl, rfl, rfl⟩, ⟨hbeq, hseq⟩, ?_, ?_⟩
  · intro hg
    rw [buyLoop, hg]
    simp only [Bool.false_eq_true, if_false]
    rw [hbeq]
  · intro hg
    rw [sellLoop, hg]
    simp only [Bool.not_true, Bool.false_eq_true, if_false]
    rw [hseq]

/-- A gateway oracle that always fails, for the C3 witness. -/
def bFailW : Position → OrderOutcome :=
  fun _ => OrderOutcome.failure "no liquidity"

/-- The freshly constructed executor state for the C3 witness. -/
def stW3 : ExecState := initialState true false

theorem order_failure_only_failed_counter_witness :
    (bFailW (posW "1" 10) = OrderOutcome.failure "no liquidity" ∨
      bFailW (posW "1" 10) = OrderOutcome.thrown "no liquidity") ∧
    (((applyFailure stW3.stats).totalTradesFailed =
        stW3.stats.totalTradesFailed + 1 ∧
      (applyFailure stW3.stats).totalTradesExecuted =
        stW3.stats.totalTradesExecuted ∧
      (applyFailure stW3.stats).totalVolume = stW3.stats.totalVolume ∧
      (applyFailure stW3.stats).lastTradeTime = stW3.stats.lastTradeTime) ∧
    (applyBuyResult stW3 (posW "1" 10) (bFailW (posW "1" 10)) 0 =
        { stW3 with stats := applyFailure stW3.stats } ∧
      applySellResult stW3 (posW "1" 10) (bFailW (posW "1" 10)) 0 =
        { stW3 with stats := applyFailure stW3.stats }) ∧
    (setHas stW3.executedPositions (posW "1" 10).id = false →
      buyLoop bFailW 0 (posW "1" 10 :: []) stW3 =
        ((buyLoop bFailW 0 [] { stW3 with stats := applyFailure stW3.stats }).1,
          TradeCall.buy (posW "1" 10) (bFailW (posW "1" 10)) ::
            (buyLoop bFailW 0 []
              { stW3 with stats := applyFailure stW3.stats }).2)) ∧
    (setHas stW3.executedPositions (posW "1" 10).id = true →
      sellLoop bFailW 0 (posW "1" 10 :: []) stW3 =
        ((sellLoop bFailW 0 []
            { stW3 with stats := applyFailure stW3.stats }).1,
          TradeCall.sell (posW "1" 10) (bFailW (posW "1" 10)) ::
            (sellLoop bFailW 0 []
              { stW3 with stats := applyFailure stW3.stats }).2))) :=
  ⟨Or.inl rfl,
    order_failure_only_failed_counter bFailW bFailW 0 stW3 (posW "1" 10) []
      "no liquidity" (Or.inl rfl) (Or.inl rfl)⟩

/-! ### C8: disabled copy trading -/

/-- The `onUpdate` wrapper installed by the `StrategyExecutor` constructor:
the original `monitorOptions.onUpdate` callback is always invoked first (the
`Bool` component records it), and the copy-trading logic
(`handleStatusUpdate`) runs only `if (this.config.enabled)`. -/
def onUpdateWrapper (enabled : Bool) (buyFn sellFn : Position → OrderOutcome)
    (time : ℕ) (st : ExecState) (openPositions : List Position) :
    ExecState × List TradeCall × Bool :=
  if enabled then
    ((handleStatusUpdate buyFn sellFn time st openPositions).1,
     (handleStatusUpdate buyFn sellFn time st openPositions).2, true)
  else
    (st, [], true)

/-- A sequence of tracker update notifications delivered through the wrapper:
the final executor state, the concatenated gateway-call trace, and the number
of original-callback invocations. -/
def runWrapped (enabled : Bool) (st : ExecState) :
    List CycleInput → ExecState × List TradeCall × ℕ
  | [] => (st, [], 0)
  | c :: rest =>
    let step :=
      onUpdateWrapper enabled c.buyFn c.sellFn c.time st c.openPositions
    let cont := runWrapped enabled step.1 rest
    (cont.1, step.2.1 ++ cont.2.1, (if step.2.2 then 1 else 0) + cont.2.2)

/-- The externally observable start-up actions of `StrategyExecutor.start`. -/
inductive StartEffect where
  | trackerStart
  | gatewayInit
  deriving DecidableEq, Repr

/-- `StrategyExecutor.start`: when copy trading is disabled, start the
underlying tracker only and return.  Otherwise attempt to initialize the
order executor (`initFailure` is `some err` when `initialize()` throws); the
failure is rethrown in live mode and only logged in dry-run mode; then the
tracker is started. -/
def start (enabled dryRun : Bool) (initFailure : Option String) :
    Except String (List StartEffect) :=
  if !enabled then
    Except.ok [StartEffect.trackerStart]
  else
    match initFailure with
    | none => Except.ok [StartEffect.gatewayInit, StartEffect.trackerStart]
    | some err =>
      if !dryRun then Except.error err
      else Except.ok [StartEffect.gatewayInit, StartEffect.trackerStart]

theorem runWrapped_disabled (st : ExecState) (cycles : List CycleInput) :
    runWrapped false st cycles = (st, [], cycles.length) := by
  induction cycles generalizing st with
  | nil => rfl
  | cons c rest ih =>
    rw [runWrapped]
    simp [onUpdateWrapper, ih, Nat.add_comm]

/-- C8: with copy trading disabled by configuration, `start` only starts the
underlying tracker and returns, and over every sequence of snapshot updates
no buy or sell gateway call ever occurs, the executor state is untouched, and
the tracker's original update callback fires on every update. -/
theorem disabled_observe_only (dryRun : Bool) (initFailure : Option String)
    (st : ExecState) (cycles : List CycleInput) :
    start false dryRun initFailure = Except.ok [StartEffect.trackerStart] ∧
    (runWrapped false st cycles).2.1 = [] ∧
    (runWrapped false st cycles).1 = st ∧
    (runWrapped false st cycles).2.2 = cycles.length := by
  refine ⟨rfl, ?_, ?_, ?_⟩ <;> rw [runWrapped_disabled]

/-! ### C1: sells only for ids the engine itself bought -/

theorem successBuyIds_append (l1 l2 : List TradeCall) :
    successBuyIds (l1 ++ l2) = successBuyIds l1 ++ successBuyIds l2 :=
  List.filterMap_append l1 l2 _

theorem handle_exec_sound (b s : Position → OrderOutcome) (t : ℕ)
    (st : ExecState) (ops : List Position) (id : String)
    (h : id ∈ (handleStatusUpdate b s t st ops).1.executedPositions) :
    id ∈ st.executedPositions ∨
      id ∈ successBuyIds (handleStatusUpdate b s t st ops).2 := by
  rw [handle_exec] at h
  have h1 := sellLoop_exec_subset s t id _ _ h
  rcases buyLoop_exec_subset b t id _ _ h1 with h2 | h2
  · exact Or.inl h2
  · right
    rw [handle_trace, successBuyIds_append]
    exact List.mem_append.mpr (Or.inl h2)

theorem handle_sell_sound (b s : Position → OrderOutcome) (t : ℕ)
    (st : ExecState) (ops : List Position) (p : Position) (out : OrderOutcome)
    (h : TradeCall.sell p out ∈ (handleStatusUpdate b s t st ops).2) :
    p.id ∈ st.executedPositions ∨
      p.id ∈ successBuyIds (handleStatusUpdate b s t st ops).2 := by
  rw [handle_trace] at h
  rcases List.mem_append.mp h with h' | h'
  · obtain ⟨p', _, heq⟩ := buyLoop_calls_shape b t _ _ _ h'
    simp at heq
  · have h1 := sellLoop_sell_guard s t _ _ p out h'
    rcases buyLoop_exec_subset b t p.id _ _ h1 with h2 | h2
    · exact Or.inl h2
    · right
      rw [handle_trace, successBuyIds_append]
      exact List.mem_append.mpr (Or.inl h2)

theorem runCycles_sell_sound :
    ∀ (cycles : List CycleInput) (st : ExecState) (p : Position)
      (out : OrderOutcome),
      TradeCall.sell p out ∈ (runCycles st cycles).2 →
      p.id ∈ st.executedPositions ∨
        p.id ∈ successBuyIds (runCycles st cycles).2 := by
  intro cycles
  induction cycles with
  | nil => intro st p out h; simp [runCycles] at h
  | cons c rest ih =>
    intro st p out h
    rw [runCycles] at h ⊢
    simp only [List.mem_append, successBuyIds_append] at h ⊢
    rcases h with h' | h'
    · rcases handle_sell_sound c.buyFn c.sellFn c.time st c.openPositions
        p out h' with h2 | h2
      · exact Or.inl h2
      · exact Or.inr (Or.inl h2)
    · rcases ih _ p out h' with h2 | h2
      · rcases handle_exec_sound c.buyFn c.sellFn c.time st c.openPositions
          p.id h2 with h3 | h3
        · exact Or.inl h3
        · exact Or.inr (Or.inl h3)
      · exact Or.inr (Or.inr h2)

/-- C1: over every sequence of diff-and-execute cycles from the freshly
constructed executor, every position passed to the sell gateway has an id
that was inserted into the execution ledger by a successful buy in the run's
trace: an id never bought successfully is never sold, even if it disappears
from the current snapshot. -/
theorem never_sell_unbought (enabled dryRun : Bool)
    (cycles : List CycleInput) (p : Position) (out : OrderOutcome)
    (h : TradeCall.sell p out ∈
      (runCycles (initialState enabled dryRun) cycles).2) :
    p.id ∈ successBuyIds (runCycles (initialState enabled dryRun) cycles).2 := by
  rcases runCycles_sell_sound cycles _ p out h with h' | h'
  · exact absurd h' (List.not_mem_nil _)
  · exact h'

/-- An always-successful gateway oracle, for the witnesses. -/
def sOKW : Position → OrderOutcome :=
  fun _ => OrderOutcome.success none none

/-- First witness cycle: the target opens position "1". -/
def cW1 : CycleInput :=
  { buyFn := sOKW, sellFn := sOKW, time := 0, openPositions := [posW "1" 10] }

/-- Second witness cycle: the target's position "1" disappears. -/
def cW2 : CycleInput :=
  { buyFn := sOKW, sellFn := sOKW, time := 1, openPositions := [] }

theorem never_sell_unbought_witness :
    TradeCall.sell (posW "1" 10) (OrderOutcome.success none none) ∈
      (runCycles (initialState true false) [cW1, cW2]).2 ∧
    (posW "1" 10).id ∈
      successBuyIds (runCycles (initialState true false) [cW1, cW2]).2 :=
  have hmem : TradeCall.sell (posW "1" 10) (OrderOutcome.success none none) ∈
      (runCycles (initialState true false) [cW1, cW2]).2 :=
    List.Mem.tail _ (List.Mem.head _)
  ⟨hmem, never_sell_unbought true false [cW1, cW2] _ _ hmem⟩

/-! ### C2: round trip — sell once on disappearance, fresh buy on return -/

theorem sellLoop_exec_removes (s : Position → OrderOutcome) (t : ℕ)
    (id : String)
    (hsucc : ∀ q : Position, q.id = id →
      ∃ a c, s q = OrderOutcome.success a c) :
    ∀ (ps : List Position) (st : ExecState),
      (id ∈ (sellLoop s t ps st).1.executedPositions ↔
        id ∈ st.executedPositions ∧ ∀ q ∈ ps, q.id ≠ id) := by
  intro ps
  induction ps with
  | nil => intro st; simp [sellLoop]
  | cons q ps ih =>
    intro st
    by_cases hqid : q.id = id
    · cases hg : setHas st.executedPositions q.id with
      | false =>
        rw [sellLoop, hg]
        simp only [Bool.not_false, if_pos]
        rw [ih st]
        have hnotin : id ∉ st.executedPositions := by
          rw [← hqid]
          simpa [setHas] using hg
        simp [hnotin]
      | true =>
        rw [sellLoop, hg]
        simp only [Bool.not_true, Bool.false_eq_true, if_false]
        rw [ih _, exec_applySellResult_mem]
        obtain ⟨a, c, hs⟩ := hsucc q hqid
        constructor
        · rintro ⟨⟨-, himp⟩, -⟩
          exact absurd hqid.symm (himp ⟨a, c, hs⟩)
        · rintro ⟨-, hall⟩
          exact absurd hqid (hall q (List.mem_cons_self q ps))
    · cases hg : setHas st.executedPositions q.id with
      | false =>
        rw [sellLoop, hg]
        simp only [Bool.not_false, if_pos]
        rw [ih st]
        constructor
        · rintro ⟨h1, h2⟩
          refine ⟨h1, fun q' hq' => ?_⟩
          rcases List.mem_cons.mp hq' with rfl | hq'
          · exact hqid
          · exact h2 q' hq'
        · rintro ⟨h1, h2⟩
          exact ⟨h1, fun q' hq' => h2 q' (List.mem_cons_of_mem q hq')⟩
      | true =>
        rw [sellLoop, hg]
        simp only [Bool.not_true, Bool.false_eq_true, if_false]
        rw [ih _, exec_applySellResult_mem]
        constructor
        · rintro ⟨⟨h1, -⟩, h2⟩
          refine ⟨h1, fun q' hq' => ?_⟩
          rcases List.mem_cons.mp hq' with rfl | hq'
          · exact hqid
          · exact h2 q' hq'
        · rintro ⟨h1, h2⟩
          refine ⟨⟨h1, fun _ hidq => hqid hidq.symm⟩,
            fun q' hq' => h2 q' (List.mem_cons_of_mem q hq')⟩

theorem exists_closed_of_gone (st : ExecState) (ops : List Position)
    (id : String) (hWF : mapWF st.targetPositions)
    (hprev : mapHas st.targetPositions id = true)
    (hgone : id ∉ ops.map Position.id) :
    ∃ q ∈ closedPositionsOf st ops, q.id = id := by
  rw [mapHas, decide_eq_true_eq, List.mem_map] at hprev
  obtain ⟨e, he, heid⟩ := hprev
  refine ⟨e.2, ?_, ?_⟩
  · rw [closedPositionsOf]
    apply List.mem_map_of_mem
    apply List.mem_filter.mpr
    refine ⟨he, ?_⟩
    rw [heid]
    have hh : mapHas (mapOfList ops) id = false := by
      rw [mapHas, decide_eq_false_iff_not, mem_keys_mapOfList]
      exact hgone
    rw [hh]
    rfl
  · rw [← hWF.2 e he, heid]

/-- C2: after a successful buy for id `P` (the id is in the ledger and in the
target map), if `P` is absent from the next accepted snapshot then exactly
one sell attempt for `P` occurs in that cycle; when the sell succeeds the id
is removed from the ledger, so a snapshot in which `P` reappears triggers
exactly one fresh buy attempt rather than being skipped. -/
theorem round_trip_sell_once_then_fresh_buy
    (b1 s1 b2 s2 : Position → OrderOutcome) (t1 t2 : ℕ) (st : ExecState)
    (snap1 snap2 : List Position) (id : String)
    (hWF : mapWF st.targetPositions)
    (hledger : id ∈ st.executedPositions)
    (hprev : mapHas st.targetPositions id = true)
    (hgone : id ∉ snap1.map Position.id)
    (hsellOK : ∀ q : Position, q.id = id →
      ∃ a c, s1 q = OrderOutcome.success a c)
    (hback : id ∈ snap2.map Position.id) :
    sellCallCount (handleStatusUpdate b1 s1 t1 st snap1).2 id = 1 ∧
    id ∉ (handleStatusUpdate b1 s1 t1 st snap1).1.executedPositions ∧
    buyCallCount (handleStatusUpdate b2 s2 t2
      (handleStatusUpdate b1 s1 t1 st snap1).1 snap2).2 id = 1 := by
  have hout : id ∉ (handleStatusUpdate b1 s1 t1 st snap1).1.executedPositions := by
    rw [handle_exec, sellLoop_exec_removes s1 t1 id hsellOK]
    rintro ⟨-, hall⟩
    obtain ⟨q, hq, hqid⟩ := exists_closed_of_gone st snap1 id hWF hprev hgone
    exact hall q hq hqid
  refine ⟨?_, hout, ?_⟩
  · rw [handle_sellCallCount b1 s1 t1 st snap1 id hWF,
      if_pos ⟨hprev, hgone, hledger⟩]
  · rw [handle_buyCallCount, if_pos]
    refine ⟨hback, ?_, hout⟩
    rw [handle_target, mapHas, decide_eq_false_iff_not, mem_keys_mapOfList]
    exact hgone

/-- The executor state for the C2 witness: position "1" was bought and is in
the target map. -/
def stW2 : ExecState :=
  { executedPositions := ["1"]
    targetPositions := [("1", posW "1" 10)]
    stats := (initialState true false).stats }

theorem round_trip_witness :
    (mapWF stW2.targetPositions ∧
      "1" ∈ stW2.executedPositions ∧
      mapHas stW2.targetPositions "1" = true ∧
      "1" ∉ ([] : List Position).map Position.id ∧
      "1" ∈ [posW "1" 10].map Position.id) ∧
    (sellCallCount (handleStatusUpdate sOKW sOKW 0 stW2 []).2 "1" = 1 ∧
      "1" ∉ (handleStatusUpdate sOKW sOKW 0 stW2 []).1.executedPositions ∧
      buyCallCount (handleStatusUpdate sOKW sOKW 1
        (handleStatusUpdate sOKW sOKW 0 stW2 []).1 [posW "1" 10]).2 "1" = 1) :=
  ⟨⟨⟨by decide, by decide⟩, by decide, by decide, by decide, by decide⟩,
    round_trip_sell_once_then_fresh_buy sOKW sOKW sOKW sOKW 0 1 stW2 []
      [posW "1" 10] "1" ⟨by decide, by decide⟩ (by decide) (by decide)
      (by decide) (fun q _ => ⟨none, none, rfl⟩) (by decide)⟩

/-! ### C4: a failed buy is never retried while the position stays open -/

theorem runCycles_no_buy_if_held :
    ∀ (cycles : List CycleInput) (st : ExecState) (id : String),
      mapHas st.targetPositions id = true →
      (∀ c ∈ cycles, id ∈ c.openPositions.map Position.id) →
      buyCallCount (runCycles st cycles).2 id = 0 := by
  intro cycles
  induction cycles with
  | nil => intro st id _ _; simp [runCycles, buyCallCount]
  | cons c rest ih =>
    intro st id htgt hall
    rw [runCycles]
    simp only []
    rw [buyCallCount_append]
    have h1 : buyCallCount
        (handleStatusUpdate c.buyFn c.sellFn c.time st c.openPositions).2 id
        = 0 := by
      rw [handle_buyCallCount, if_neg]
      rintro ⟨-, habs, -⟩
      rw [htgt] at habs
      exact absurd habs (by simp)
    have h2 : buyCallCount (runCycles
        (handleStatusUpdate c.buyFn c.sellFn c.time st c.openPositions).1
          rest).2 id = 0 := by
      apply ih
      · rw [handle_target, mapHas, decide_eq_true_eq, mem_keys_mapOfList]
        exact hall c (List.mem_cons_self c rest)
      · exact fun c' hc' => hall c' (List.mem_cons_of_mem c hc')
    rw [h1, h2]

/-- C4: a position that is present in a snapshot (so that its buy is
attempted exactly once, here failing) enters the `TargetPositionMap` when
`previous` is unconditionally replaced with `current` at cycle end; as long
as every subsequent snapshot still contains that id, the position is never
classified as "new" again and is never passed to the buy gateway again — the
failed buy is never retried. -/
theorem failed_buy_never_retried
    (b1 s1 : Position → OrderOutcome) (t1 : ℕ) (st : ExecState)
    (snap1 : List Position) (id : String) (cycles : List CycleInput)
    (e : String)
    (hin : id ∈ snap1.map Position.id)
    (hnew : mapHas st.targetPositions id = false)
    (hnotled : id ∉ st.executedPositions)
    (_hfail : ∀ q : Position, q.id = id →
      b1 q = OrderOutcome.failure e ∨ b1 q = OrderOutcome.thrown e)
    (hstay : ∀ c ∈ cycles, id ∈ c.openPositions.map Position.id) :
    buyCallCount (handleStatusUpdate b1 s1 t1 st snap1).2 id = 1 ∧
    buyCallCount
      (runCycles (handleStatusUpdate b1 s1 t1 st snap1).1 cycles).2 id = 0 := by
  constructor
  · rw [handle_buyCallCount, if_pos ⟨hin, hnew, hnotled⟩]
  · apply runCycles_no_buy_if_held
    · rw [handle_target, mapHas, decide_eq_true_eq, mem_keys_mapOfList]
      exact hin
    · exact hstay

/-- A subsequent cycle for the C4 witness: the target still holds position
"1", the gateway keeps failing. -/
def cFailW : CycleInput :=
  { buyFn := bFailW, sellFn := bFailW, time := 2,
    openPositions := [posW "1" 10] }

theorem failed_buy_never_retried_witness :
    ("1" ∈ [posW "1" 10].map Position.id ∧
      mapHas (initialState true false).targetPositions "1" = false ∧
      "1" ∉ (initialState true false).executedPositions ∧
      (∀ c ∈ [cFailW], "1" ∈ c.openPositions.map Position.id)) ∧
    (buyCallCount
        (handleStatusUpdate bFailW bFailW 0 (initialState true false)
          [posW "1" 10]).2 "1" = 1 ∧
      buyCallCount (runCycles
        (handleStatusUpdate bFailW bFailW 0 (initialState true false)
          [posW "1" 10]).1 [cFailW]).2 "1" = 0) :=
  ⟨⟨by decide, by decide, by decide, by decide⟩,
    failed_buy_never_retried bFailW bFailW 0 (initialState true false)
      [posW "1" 10] "1" [cFailW] "no liquidity" (by decide) (by decide)
      (by decide) (fun q _ => Or.inl rfl) (by decide)⟩
